import Mathlib

/-!
Verification of the polygon-geometry kernel of CuraEngine (`src/utils/polygons.cpp`
and `src/include/utils/actions/smooth.h`) against its natural-language specification.

The data model is a shallow embedding: a `Point2LL` is a pair of mathematical
integers (the C++ code uses 64-bit fixed-point coordinates; none of the verified
claims hinges on wrap-around, so `Int` is used with the relevant sentinels made
explicit), a polygon is a `List Point2LL`, a polygon set a `List (List Point2LL)`.
External collaborators that the specification treats as oracles (the Clipper
boolean-clipping engine, the per-path point-in-polygon test, the per-edge
scanline classifier) are passed in as function parameters, so the theorems hold
for every oracle.
-/

set_option autoImplicit false

namespace CuraSpec

/-- The fixed-point 2D point type (`Point2LL` in the source). Coordinates are
modelled as unbounded integers. -/
structure Point2LL where
  X : Int
  Y : Int
  deriving DecidableEq, Repr, Inhabited

instance : Add Point2LL := ⟨fun a b => ⟨a.X + b.X, a.Y + b.Y⟩⟩
instance : Sub Point2LL := ⟨fun a b => ⟨a.X - b.X, a.Y - b.Y⟩⟩

@[simp] theorem Point2LL.add_def (a b : Point2LL) : a + b = ⟨a.X + b.X, a.Y + b.Y⟩ := rfl
@[simp] theorem Point2LL.sub_def (a b : Point2LL) : a - b = ⟨a.X - b.X, a.Y - b.Y⟩ := rfl

/-- Modelled from the spec: the geometry primitives component provides the dot
product of two vectors (`dot` in the source tree, outside the covered files). -/
def dot (a b : Point2LL) : Int := a.X * b.X + a.Y * b.Y

/-- Modelled from the spec: squared Euclidean length (`vSize2` in the source
tree, outside the covered files); exact in integer arithmetic. -/
def vSize2 (a : Point2LL) : Int := a.X * a.X + a.Y * a.Y

/-- Modelled from the spec: the 2D cross product of two vectors, used here only
to characterise exact anti-parallelism in integer arithmetic. -/
def cross (a b : Point2LL) : Int := a.X * b.Y - a.Y * b.X

/-- A polygon: an ordered vertex list with an implicit closing edge. -/
abbrev Polygon := List Point2LL

/-- A polygon set (`Polygons` in the source): an ordered list of polygons. -/
abbrev Polygons := List Polygon

/-- The `NO_INDEX` sentinel: `std::numeric_limits<size_t>::max()`. -/
def NO_INDEX : Nat := 2 ^ 64 - 1

/-- `std::numeric_limits<int64_t>::max()`, the initial value of every `min_x`
slot in `Polygons::findInside`. -/
def INT64_MAX : Int := 2 ^ 63 - 1

/-! ## C8: `LinesSet::offset` with zero distance

From the source: `offset` starts with `if (distance == 0) return
Polygons(getCallable());` before any Clipper object is constructed. Everything
past that guard (union of Filled inputs, end-type selection, the ClipperOffset
execution) is the external clipping oracle, abstracted as `oracle`, which
receives the distance, the join-type/miter-limit configuration and the paths. -/

/-- `LinesSet::offset(distance, joinType, miter_limit)` from the source. The
`oracle` parameter stands for the whole ClipperOffset pipeline that runs when
`distance ≠ 0` (including the union performed for Filled inputs). `joinType`
and `miterLimit` are forwarded to the oracle untouched. -/
def offset (oracle : Int → Nat → Int → Polygons → Polygons)
    (paths : Polygons) (distance : Int) (joinType : Nat) (miterLimit : Int) : Polygons :=
  if distance = 0 then paths
  else oracle distance joinType miterLimit paths

/-! ## C10: `Polygons::operator=(Polygons&&)`

The source reads:
```
Polygons& Polygons::operator=(Polygons&& polygons)
{
    if (this != &polygons)
    {
        (*this) = std::move(polygons);
    }
    return *this;
}
```
The body's assignment resolves to this very move-assignment operator again
(the operand is an rvalue of type `Polygons`), so for distinct operands the
function re-enters itself unconditionally. The model makes the recursion depth
explicit through a fuel parameter: `none` means that no call of depth at most
`fuel` returns. -/

/-- Model of `Polygons::operator=(Polygons&&)`. `distinct` is the result of the
`this != &polygons` identity test; `receiver` is the pre-call contents of
`*this`. Self-assignment skips the body and returns the receiver unchanged; for
distinct operands the body re-invokes the same operator. -/
def moveAssignFuel : Nat → Bool → Polygons → Polygons → Option Polygons
  | 0, _, _, _ => none
  | _ + 1, false, receiver, _ => some receiver
  | fuel + 1, true, receiver, source => moveAssignFuel fuel true receiver source

/-! ## C5: `Polygons::inside`

From the source:
```
bool Polygons::inside(Point2LL p, bool border_result) const
{
    int poly_count_inside = 0;
    for (const ClipperLib::Path& poly : *this)
    {
        const int is_inside_this_poly = ClipperLib::PointInPolygon(p, poly);
        if (is_inside_this_poly == -1)
        {
            return border_result;
        }
        poly_count_inside += is_inside_this_poly;
    }
    return (poly_count_inside % 2) == 1;
}
```
`ClipperLib::PointInPolygon` is the external point-in-single-path oracle
(returns 0 outside, 1 inside, -1 on the border); it is abstracted as `pip`.
The accumulator is only ever increased by oracle values that are not -1, so for
a contract-abiding oracle it stays non-negative and `Int.emod` agrees with the
C++ `%`. -/

/-- The accumulation loop of `Polygons::inside`. -/
def insideGo (pip : Point2LL → Polygon → Int) (p : Point2LL) (borderResult : Bool) :
    Polygons → Int → Bool
  | [], acc => acc % 2 = 1
  | poly :: rest, acc =>
    let r := pip p poly
    if r = -1 then borderResult
    else insideGo pip p borderResult rest (acc + r)

/-- `Polygons::inside(p, border_result)` from the source, parameterised by the
point-in-single-path oracle. -/
def inside (pip : Point2LL → Polygon → Int) (polys : Polygons)
    (p : Point2LL) (borderResult : Bool) : Bool :=
  insideGo pip p borderResult polys 0

/-! ## C1 / C9: `Polygons::findInside`

From the source (slightly abridged):
```
size_t Polygons::findInside(Point2LL p, bool border_result) const
{
    if (size() < 1) return false;
    std::vector<int64_t> min_x(size(), std::numeric_limits<int64_t>::max());
    std::vector<int64_t> crossings(size());
    for (size_t poly_idx = 0; poly_idx < size(); poly_idx++)
    {
        const Polygon poly = (*this)[poly_idx];
        Point2LL p0 = poly.back();
        for (const Point2LL& p1 : poly)
        {
            short comp = LinearAlg2D::pointLiesOnTheRightOfLine(p, p0, p1);
            if (comp == 1)
            {
                crossings[poly_idx]++;
                int64_t x;
                if (p1.Y == p0.Y) x = p0.X;
                else x = p0.X + (p1.X - p0.X) * (p.Y - p0.Y) / (p1.Y - p0.Y);
                if (x < min_x[poly_idx]) min_x[poly_idx] = x;
            }
            else if (border_result && comp == 0) return poly_idx;
            p0 = p1;
        }
    }
    int64_t min_x_uneven = std::numeric_limits<int64_t>::max();
    size_t ret = NO_INDEX;
    size_t n_unevens = 0;
    for (size_t array_idx = 0; array_idx < size(); array_idx++)
        if (crossings[array_idx] % 2 == 1)
        {
            n_unevens++;
            if (min_x[array_idx] < min_x_uneven)
            { min_x_uneven = min_x[array_idx]; ret = array_idx; }
        }
    if (n_unevens % 2 == 0) ret = NO_INDEX;
    return ret;
}
```
`LinearAlg2D::pointLiesOnTheRightOfLine` lives outside the covered files.
Modelled from the spec, it classifies the query point against each directed
edge as right-of / on / left-of (1 / 0 / -1); here it is kept fully abstract as
a parameter `comp`, so every theorem holds for any classifier. An empty contour
contributes no edges (its loop body never runs). -/

/-- The edge list traversed by the source loop: `p0` starts at `poly.back()`
and each vertex in order is the `p1` of one edge. -/
def edgePairs (poly : Polygon) : List (Point2LL × Point2LL) :=
  match poly with
  | [] => []
  | _ :: _ => List.zip (poly.getLast! :: poly.dropLast) poly

/-- The crossing x-coordinate recorded for an edge with `comp == 1`, exactly as
computed by the source (C++ `/` on `int64_t` truncates toward zero, which is
`Int.tdiv`). -/
def crossX (p : Point2LL) (e : Point2LL × Point2LL) : Int :=
  if e.2.Y = e.1.Y then e.1.X
  else e.1.X + Int.tdiv ((e.2.X - e.1.X) * (p.Y - e.1.Y)) (e.2.Y - e.1.Y)

/-- The inner edge loop of `findInside` for one polygon: threads the crossing
count and minimum-x accumulator, and signals an on-edge early return (when
`border_result` is set) as `Sum.inl`. -/
def scanEdges (comp : Point2LL → Point2LL → Point2LL → Int) (p : Point2LL)
    (borderResult : Bool) :
    List (Point2LL × Point2LL) → Int → Int → Unit ⊕ (Int × Int)
  | [], crossings, minX => .inr (crossings, minX)
  | e :: rest, crossings, minX =>
    let c := comp p e.1 e.2
    if c = 1 then
      let x := crossX p e
      scanEdges comp p borderResult rest (crossings + 1) (if x < minX then x else minX)
    else if borderResult ∧ c = 0 then .inl ()
    else scanEdges comp p borderResult rest crossings minX

/-- The outer polygon loop of `findInside`: either the index of the polygon in
which the first on-edge early return fires (`Sum.inl`), or the per-polygon
`(crossings, min_x)` table (`Sum.inr`). -/
def scanPolys (comp : Point2LL → Point2LL → Point2LL → Int) (p : Point2LL)
    (borderResult : Bool) : Polygons → Nat → Nat ⊕ List (Int × Int)
  | [], _ => .inr []
  | poly :: rest, idx =>
    match scanEdges comp p borderResult (edgePairs poly) 0 INT64_MAX with
    | .inl () => .inl idx
    | .inr cm =>
      match scanPolys comp p borderResult rest (idx + 1) with
      | .inl i => .inl i
      | .inr l => .inr (cm :: l)

/-- The selection loop of `findInside`: state is
`(min_x_uneven, ret, n_unevens)` exactly as in the source. -/
def selectLoop : List (Int × Int) → Nat → Int → Nat → Nat → Nat × Int × Nat
  | [], _, minXUneven, ret, nUnevens => (ret, minXUneven, nUnevens)
  | (crossings, minX) :: rest, i, minXUneven, ret, nUnevens =>
    if crossings % 2 = 1 then
      if minX < minXUneven then selectLoop rest (i + 1) minX i (nUnevens + 1)
      else selectLoop rest (i + 1) minXUneven ret (nUnevens + 1)
    else selectLoop rest (i + 1) minXUneven ret nUnevens

/-- The second phase of `findInside` on the `(crossings, min_x)` table. -/
def selectUneven (data : List (Int × Int)) : Nat :=
  let r := selectLoop data 0 INT64_MAX NO_INDEX 0
  if r.2.2 % 2 = 0 then NO_INDEX else r.1

/-- `Polygons::findInside(p, border_result)` from the source, parameterised by
the per-edge classifier `comp`. The empty set returns `false`, which converts
to the `size_t` value 0. -/
def findInside (comp : Point2LL → Point2LL → Point2LL → Int) (polys : Polygons)
    (p : Point2LL) (borderResult : Bool) : Nat :=
  if polys.length < 1 then 0
  else
    match scanPolys comp p borderResult polys 0 with
    | .inl i => i
    | .inr data => selectUneven data

/-! Claim-side definitions for C1, following the claim's words: per-polygon
crossing count, per-polygon recorded minimum crossing x, parity of the number
of odd-count polygons, innermost = smallest recorded minimum x (first index on
ties), and the on-edge early return. -/

/-- The crossing x-coordinates a polygon records for the query point: one per
edge classified `1` (right-of) by `comp`, in edge order. -/
def crossXs (comp : Point2LL → Point2LL → Point2LL → Int) (p : Point2LL)
    (es : List (Point2LL × Point2LL)) : List Int :=
  es.filterMap fun e => if comp p e.1 e.2 = 1 then some (crossX p e) else none

/-- Left-fold minimum with explicit initial value, the shape in which the
source records `min_x`. -/
def recordMin (minX : Int) : List Int → Int
  | [] => minX
  | x :: xs => recordMin (if x < minX then x else minX) xs

/-- A polygon's crossing count for the query point. -/
def polyCrossings (comp : Point2LL → Point2LL → Point2LL → Int) (p : Point2LL)
    (poly : Polygon) : Int :=
  (crossXs comp p (edgePairs poly)).length

/-- A polygon's recorded minimum right-of-crossing x-coordinate (the `int64`
maximum when no crossing records an x below it). -/
def polyMinX (comp : Point2LL → Point2LL → Point2LL → Int) (p : Point2LL)
    (poly : Polygon) : Int :=
  recordMin INT64_MAX (crossXs comp p (edgePairs poly))

/-- Whether a polygon has an edge on which the query point lies exactly. -/
def hasBorderEdge (comp : Point2LL → Point2LL → Point2LL → Int) (p : Point2LL)
    (poly : Polygon) : Bool :=
  (edgePairs poly).any fun e => comp p e.1 e.2 = 0

/-- The index of the first polygon (in set order) owning an on-edge hit, when
`border_result` is requested; `none` otherwise. -/
def firstBorderPoly (comp : Point2LL → Point2LL → Point2LL → Int) (p : Point2LL)
    (borderResult : Bool) : Polygons → Nat → Option Nat
  | [], _ => none
  | poly :: rest, idx =>
    if borderResult ∧ hasBorderEdge comp p poly then some idx
    else firstBorderPoly comp p borderResult rest (idx + 1)

/-- The odd-crossing-count polygons whose recorded minimum x is a genuine
crossing coordinate (strictly below the `int64` sentinel), with their indices. -/
def oddCandidates : List (Int × Int) → Nat → List (Nat × Int)
  | [], _ => []
  | (crossings, minX) :: rest, i =>
    if crossings % 2 = 1 ∧ minX < INT64_MAX then (i, minX) :: oddCandidates rest (i + 1)
    else oddCandidates rest (i + 1)

/-- The first element attaining the minimal second component: the innermost
enclosing contour's entry, first index winning ties. -/
def firstArgmin : List (Nat × Int) → Option (Nat × Int)
  | [] => none
  | e :: rest =>
    match firstArgmin rest with
    | none => some e
    | some f => if f.2 < e.2 then some f else some e

/-- The number of polygons with an odd crossing count. -/
def oddCount (data : List (Int × Int)) : Nat :=
  data.countP fun cm => cm.1 % 2 = 1

/-- The claim's selection rule: the sentinel when the number of odd-count
polygons is even (or when no odd-count polygon recorded a genuine crossing x),
otherwise the index of the odd-count polygon with the smallest recorded
minimum crossing x, first index on ties. -/
def claimSelect (data : List (Int × Int)) : Nat :=
  if oddCount data % 2 = 0 then NO_INDEX
  else
    match firstArgmin (oddCandidates data 0) with
    | none => NO_INDEX
    | some f => f.1

/-- The claim's description of `findInside`: an on-edge hit returns the owning
polygon's index immediately when `border_result` is requested; otherwise the
parity-and-innermost selection over the per-polygon crossing data. -/
def findInsideClaim (comp : Point2LL → Point2LL → Point2LL → Int) (polys : Polygons)
    (p : Point2LL) (borderResult : Bool) : Nat :=
  match firstBorderPoly comp p borderResult polys 0 with
  | some i => i
  | none =>
    claimSelect (polys.map fun poly => (polyCrossings comp p poly, polyMinX comp p poly))

/-! ## C2: `Polygons::removeSmallAreaCircumference`

From the source:
```
void Polygons::removeSmallAreaCircumference(const double min_area_size, const coord_t min_circumference_size, const bool remove_holes)
{
    Polygons new_polygon;
    bool outline_is_removed = false;
    for (const Polygon& poly : (*this))
    {
        double area = poly.area();
        auto circumference = poly.length();
        bool is_outline = area >= 0;
        if (is_outline)
        {
            if (circumference >= min_circumference_size && std::abs(area) >= min_area_size)
            { new_polygon.push_back(poly); outline_is_removed = false; }
            else outline_is_removed = true;
        }
        else if (outline_is_removed) { /* hole dropped with its parent */ }
        else if (! remove_holes || (circumference >= min_circumference_size && std::abs(area) >= min_area_size))
            new_polygon.push_back(poly);
    }
    *this = new_polygon;
}
```
`Polygon::area()` and `Polygon::length()` live outside the covered files.
Modelled from the spec, they are the signed area and the circumference of a
contour; the pass only consumes their values, so they are abstracted as
per-polygon measure functions `area : A → Rat` (C++ `double`; exact rationals
here) and `len : A → Int` (`coord_t`). -/

/-- Whether a contour passes both the circumference and the absolute-area
thresholds. -/
def passesThresholds {A : Type} (area : A → Rat) (len : A → Int)
    (minArea : Rat) (minCircumference : Int) (poly : A) : Prop :=
  minCircumference ≤ len poly ∧ minArea ≤ |area poly|

instance {A : Type} (area : A → Rat) (len : A → Int) (minArea : Rat)
    (minCircumference : Int) (poly : A) :
    Decidable (passesThresholds area len minArea minCircumference poly) :=
  inferInstanceAs (Decidable (_ ∧ _))

/-- The single left-to-right pass of `removeSmallAreaCircumference`, with the
`outline_is_removed` flag threaded explicitly. -/
def removeSACGo {A : Type} (area : A → Rat) (len : A → Int)
    (minArea : Rat) (minCircumference : Int) (removeHoles : Bool) :
    List A → Bool → List A
  | [], _ => []
  | poly :: rest, outlineIsRemoved =>
    if 0 ≤ area poly then
      if passesThresholds area len minArea minCircumference poly then
        poly :: removeSACGo area len minArea minCircumference removeHoles rest false
      else removeSACGo area len minArea minCircumference removeHoles rest true
    else if outlineIsRemoved then
      removeSACGo area len minArea minCircumference removeHoles rest outlineIsRemoved
    else if ¬removeHoles ∨ passesThresholds area len minArea minCircumference poly then
      poly :: removeSACGo area len minArea minCircumference removeHoles rest outlineIsRemoved
    else removeSACGo area len minArea minCircumference removeHoles rest outlineIsRemoved

/-- `Polygons::removeSmallAreaCircumference` from the source: the flag starts
clear. -/
def removeSmallAreaCircumference {A : Type} (area : A → Rat) (len : A → Int)
    (minArea : Rat) (minCircumference : Int) (removeHoles : Bool) (polys : List A) :
    List A :=
  removeSACGo area len minArea minCircumference removeHoles polys false

/-- Claim-side state: the parent-removed flag after a given prefix — set iff
the most recent outline in the prefix failed the thresholds, clear when the
prefix contains no outline. -/
def parentRemovedAfter {A : Type} (area : A → Rat) (len : A → Int)
    (minArea : Rat) (minCircumference : Int) (pre : List A) : Bool :=
  match (pre.filter fun poly => decide (0 ≤ area poly)).getLast? with
  | none => false
  | some o => !decide (passesThresholds area len minArea minCircumference o)

/-- Claim-side keep rule for one contour given the contours before it: an
outline is kept iff it meets both thresholds; a hole is dropped outright while
the parent-removed flag is set, and otherwise kept unless `removeHoles` is set
and it fails the thresholds itself. -/
def claimKeeps {A : Type} (area : A → Rat) (len : A → Int)
    (minArea : Rat) (minCircumference : Int) (removeHoles : Bool)
    (pre : List A) (poly : A) : Bool :=
  if 0 ≤ area poly then decide (passesThresholds area len minArea minCircumference poly)
  else if parentRemovedAfter area len minArea minCircumference pre then false
  else !removeHoles || decide (passesThresholds area len minArea minCircumference poly)

/-- Claim-side filter: keep each contour according to `claimKeeps` applied to
the contours preceding it in input order. -/
def claimFilterSAC {A : Type} (area : A → Rat) (len : A → Int)
    (minArea : Rat) (minCircumference : Int) (removeHoles : Bool) :
    List A → List A → List A
  | _, [] => []
  | pre, poly :: rest =>
    (if claimKeeps area len minArea minCircumference removeHoles pre poly
      then [poly] else [])
      ++ claimFilterSAC area len minArea minCircumference removeHoles (pre ++ [poly]) rest

/-! ## C3: `Polygons::ensureManifold`

From the source:
```
void Polygons::ensureManifold()
{
    std::vector<Point2LL> duplicate_locations;
    std::unordered_set<Point2LL> poly_locations;
    for (const Polygon& poly : (*this))
        for (const point_t& p : poly)
        {
            if (poly_locations.find(p) != poly_locations.end())
                duplicate_locations.push_back(p);
            poly_locations.emplace(p);
        }
    Polygons removal_dots;
    for (Point2LL p : duplicate_locations)
    {
        Polygon& dot = removal_dots.newPoly();
        dot.push_back(p + Point2LL(0, 5));
        dot.push_back(p + Point2LL(5, 0));
        dot.push_back(p + Point2LL(0, -5));
        dot.push_back(p + Point2LL(-5, 0));
    }
    if (! removal_dots.empty())
        *this = difference(removal_dots);
}
```
`difference` is the external boolean-clipping oracle, abstracted as `diff`.
The `unordered_set` is modelled as a membership list (only `find`/`emplace`
are used). -/

/-- The inner vertex scan of `ensureManifold` over one contour: returns the
duplicate locations found (in scan order) and the updated seen-set. -/
def dupScanPoints : List Point2LL → List Point2LL → List Point2LL × List Point2LL
  | [], seen => ([], seen)
  | p :: rest, seen =>
    let hit := seen.contains p
    let r := dupScanPoints rest (p :: seen)
    (if hit then p :: r.1 else r.1, r.2)

/-- The outer contour scan of `ensureManifold`: the seen-set persists across
contours. -/
def dupScanPolys : Polygons → List Point2LL → List Point2LL × List Point2LL
  | [], seen => ([], seen)
  | poly :: rest, seen =>
    let r1 := dupScanPoints poly seen
    let r2 := dupScanPolys rest r1.2
    (r1.1 ++ r2.1, r2.2)

/-- The `duplicate_locations` vector computed by `ensureManifold`. -/
def duplicateLocations (polys : Polygons) : List Point2LL :=
  (dupScanPolys polys []).1

/-- The 4-vertex diamond of radius 5 synthesised around a duplicate location. -/
def diamond (p : Point2LL) : Polygon :=
  [p + ⟨0, 5⟩, p + ⟨5, 0⟩, p + ⟨0, -5⟩, p + ⟨-5, 0⟩]

/-- The `removal_dots` set synthesised by `ensureManifold`. -/
def removalDots (polys : Polygons) : Polygons :=
  (duplicateLocations polys).map diamond

/-- `Polygons::ensureManifold` from the source, parameterised by the boolean
difference oracle `diff` (subject first, clip second). -/
def ensureManifold (diff : Polygons → Polygons → Polygons) (polys : Polygons) :
    Polygons :=
  if removalDots polys = [] then polys
  else diff polys (removalDots polys)

/-! ## C4: the window trigger of the generic smoothing pass

From `src/include/utils/actions/smooth.h`:
```
const auto distance_squared = std::abs(dotProduct(p1, p2));
if (distance_squared < max_distance_squared && ! withinDeviation(p0, p1, p2, p3, fluid_angle))
```
with
```
constexpr auto dotProduct(Vector* p0, Vector* p1) const
{
    return std::get<"X">(*p0) * std::get<"X">(*p1) + std::get<"Y">(*p0) * std::get<"Y">(*p1);
}
```
so `distance_squared` is the absolute dot product of the two vertex POSITIONS
`p1` and `p2`, not the squared length of the segment between them, although
the surrounding comment reads "If the middle segment is shorter than the max
resolution". -/

/-- The quantity the code calls `distance_squared` for the window's middle
segment: `|dotProduct(p1, p2)|` of the absolute positions. -/
def smoothDistanceSquared (p1 p2 : Point2LL) : Int :=
  |p1.X * p2.X + p1.Y * p2.Y|

/-- The first conjunct of the window guard as the code evaluates it. -/
def smoothTriggersCode (p1 p2 : Point2LL) (maxResolution : Int) : Bool :=
  smoothDistanceSquared p1 p2 < maxResolution * maxResolution

/-- The first conjunct of the window guard as the claim (and the code's own
comment) states it: the middle segment's squared length below
`maxResolution²`. -/
def smoothTriggersClaim (p1 p2 : Point2LL) (maxResolution : Int) : Bool :=
  vSize2 (p2 - p1) < maxResolution * maxResolution

/-! ## C6: `LinesSet::removeDegenerateVertsForEveryone` (closed-polygon case)

Source loop body for each polygon (`for_polyline` is false for `Polygons`, so
`start_vertex = 0` and `end_vertex = poly.size()`):
```
Polygon result;
auto isDegenerate = [](const Point2LL& last, const Point2LL& now, const Point2LL& next)
{
    Point2LL last_line = now - last;
    Point2LL next_line = next - now;
    return dot(last_line, next_line) == -1 * vSize(last_line) * vSize(next_line);
};
bool isChanged = false;
for (size_t idx = 0; idx < poly.size(); idx++)
{
    const Point2LL& last = (result.size() == 0) ? poly.back() : result.back();
    if (idx + 1 >= poly.size() && result.size() == 0) break;
    const Point2LL& next = (idx + 1 >= poly.size()) ? result[0] : poly[idx + 1];
    if (isDegenerate(last, poly[idx], next))
    {
        isChanged = true;
        while (result.size() > 1 && isDegenerate(result[result.size() - 2], result.back(), next))
            result.pop_back();
    }
    else result.push_back(poly[idx]);
}
if (isChanged)
{
    if (result.size() > 2) poly = result;
    else { remove(poly_idx); poly_idx--; }
}
```
-/

/-- Modelled from the spec: a vertex is degenerate iff the dot product of its
incoming and outgoing edge vectors equals the negative product of their exact
Euclidean magnitudes — equivalently, over the integers, the dot product is
non-positive and its square equals the product of the squared lengths (the
anti-parallel equality case of Cauchy–Schwarz; `isDegenerate_iff_real` below
proves the equivalence). The C++ `vSize` rounds through `double`; the spec's
formulation is exact. -/
def isDegenerate (last now next : Point2LL) : Bool :=
  let lastLine := now - last
  let nextLine := next - now
  dot lastLine nextLine ≤ 0 ∧
    dot lastLine nextLine * dot lastLine nextLine = vSize2 lastLine * vSize2 nextLine

/-- The backward cascade: keep popping the back of `result` (held in reverse,
most recent first) while the new back is degenerate against its predecessor
and the upcoming vertex. -/
def cascadePop (next : Point2LL) : List Point2LL → List Point2LL
  | b :: a :: rest =>
    if isDegenerate a b next then cascadePop next (a :: rest) else b :: a :: rest
  | l => l

/-- The per-polygon vertex loop. `origBack` is `poly.back()`; `remaining` is
the unprocessed suffix of the polygon (so `remaining.head` is `poly[idx]` and a
singleton means `idx + 1 >= poly.size()`); `rev` is `result` in reverse order;
the Bool is `isChanged`. -/
def procGo (origBack : Point2LL) :
    List Point2LL → List Point2LL → Bool → List Point2LL × Bool
  | [], rev, isChanged => (rev, isChanged)
  | [x], rev, isChanged =>
    match rev with
    | [] => ([], isChanged)
    | b :: brest =>
      let nxt := (b :: brest).getLast!
      if isDegenerate b x nxt then (cascadePop nxt (b :: brest), true)
      else (x :: b :: brest, isChanged)
  | x :: y :: rest, rev, isChanged =>
    let last := match rev with | [] => origBack | b :: _ => b
    if isDegenerate last x y then procGo origBack (y :: rest) (cascadePop y rev) true
    else procGo origBack (y :: rest) (x :: rev) isChanged

/-- One polygon's pass: the surviving vertex list (in order) and whether
anything changed. -/
def processPoly (poly : Polygon) : Polygon × Bool :=
  let r := procGo poly.getLast! poly [] false
  (r.1.reverse, r.2)

/-- `Polygons::remove(size_t)` from the source (also used by the degenerate
pass): a singleton set is cleared; otherwise the removed slot is overwritten by
the last element and the set shrinks by one. -/
def removeAtSwap (polys : Polygons) (index : Nat) : Polygons :=
  if polys.length = 1 then []
  else if 1 < polys.length then
    (if index < polys.length - 1 then polys.set index polys.getLast! else polys).dropLast
  else polys

/-- The set-level loop of `removeDegenerateVertsForEveryone`: on a collapse the
polygon is removed by swap-with-last and the same index is revisited. `fuel`
bounds the iteration count; each step either advances the index or shrinks the
set, so `2 * polys.length + 1` steps always suffice (`rdvGo_fuel_stable`). -/
def rdvGo : Nat → Polygons → Nat → Polygons
  | 0, polys, _ => polys
  | fuel + 1, polys, i =>
    if h : i < polys.length then
      let pr := processPoly (polys.get ⟨i, h⟩)
      if pr.2 then
        if 2 < pr.1.length then rdvGo fuel (polys.set i pr.1) (i + 1)
        else rdvGo fuel (removeAtSwap polys i) i
      else rdvGo fuel polys (i + 1)
    else polys

/-- `LinesSet<Polygon>::removeDegenerateVertsForEveryone` from the source. -/
def removeDegenerateVertsForEveryone (polys : Polygons) : Polygons :=
  rdvGo (2 * polys.length + 1) polys 0

/-! ## C7: `Polygons::remove(const Polygons&, int)`

From the source: for every kept candidate with at least one vertex, scan
`to_be_removed` for a polygon of the same non-zero vertex count; find the first
vertex of the removal polygon closest to the kept polygon's first vertex
(strict improvement, so the first minimiser wins); reject the pairing when that
closest squared distance exceeds `same_distance²`; otherwise require every
rotated vertex pair within `same_distance²`. A full match excludes the kept
polygon from the result. -/

/-- Vertex access `l[i]` (all source accesses are in range). -/
def pointAt (l : List Point2LL) (i : Nat) : Point2LL :=
  l.getD i ⟨0, 0⟩

/-- The closest-vertex scan: state `(smallestDist2, closest_point_idx)` starts
at `(-1, 0)` and improves on `dist2 < smallestDist2 || smallestDist2 < 0`. -/
def closestScan (q : Point2LL) : List Point2LL → Nat → Int → Nat → Int × Nat
  | [], _, bestD, bestI => (bestD, bestI)
  | r :: rest, i, bestD, bestI =>
    let d := vSize2 (r - q)
    if d < bestD ∨ bestD < 0 then closestScan q rest (i + 1) d i
    else closestScan q rest (i + 1) bestD bestI

/-- The rotation offset aligning `polyRem`'s vertex closest to `polyKeep`'s
first vertex, and that smallest squared distance. -/
def closestAlignment (polyRem polyKeep : Polygon) : Int × Nat :=
  closestScan (pointAt polyKeep 0) polyRem 0 (-1) 0

/-- Whether `polyRem` matches `polyKeep` in the source's scan: same non-zero
size, closest-vertex distance within tolerance, and every rotated vertex pair
within tolerance (squared-distance tests throughout). -/
def polyRemMatches (sameDistance : Int) (polyKeep polyRem : Polygon) : Bool :=
  if polyRem.length ≠ polyKeep.length ∨ polyRem.length = 0 then false
  else
    let a := closestAlignment polyRem polyKeep
    if a.1 > sameDistance * sameDistance then false
    else
      (List.range polyRem.length).all fun pointIdx =>
        !(vSize2 (pointAt polyRem ((a.2 + pointIdx) % polyRem.length) - pointAt polyKeep pointIdx)
            > sameDistance * sameDistance)

/-- `Polygons::remove(to_be_removed, same_distance)` from the source. -/
def polysRemove (toBeRemoved : Polygons) (sameDistance : Int) (polys : Polygons) :
    Polygons :=
  polys.filter fun polyKeep =>
    !(polyKeep.length > 0 && toBeRemoved.any fun polyRem => polyRemMatches sameDistance polyKeep polyRem)

/-- The claim's exclusion condition: `toBeRemoved` contains a polygon of the
same vertex count whose rotation offset aligning its vertex closest to the kept
polygon's first vertex puts every corresponding vertex pair within tolerance,
and the closest-vertex distance itself does not exceed tolerance. (A kept
polygon must have a first vertex for the alignment to exist.) -/
def claimExcluded (toBeRemoved : Polygons) (sameDistance : Int) (polyKeep : Polygon) : Prop :=
  polyKeep ≠ [] ∧
    ∃ polyRem ∈ toBeRemoved,
      polyRem.length = polyKeep.length ∧
        (closestAlignment polyRem polyKeep).1 ≤ sameDistance * sameDistance ∧
        ∀ k < polyKeep.length,
          vSize2 (pointAt polyRem (((closestAlignment polyRem polyKeep).2 + k) % polyRem.length)
              - pointAt polyKeep k)
            ≤ sameDistance * sameDistance

instance (toBeRemoved : Polygons) (sameDistance : Int) (polyKeep : Polygon) :
    Decidable (claimExcluded toBeRemoved sameDistance polyKeep) :=
  inferInstanceAs (Decidable (_ ∧ _))

/-! ## Supporting lemmas -/

theorem vSize2_nonneg (a : Point2LL) : 0 ≤ vSize2 a :=
  add_nonneg (mul_self_nonneg _) (mul_self_nonneg _)

/-- Faithfulness of the integer formulation of `isDegenerate`: over the exact
reals it says precisely that the dot product of the incoming and outgoing edge
vectors equals the negative product of their Euclidean magnitudes. -/
theorem isDegenerate_iff_real (last now next : Point2LL) :
    isDegenerate last now next = true ↔
      ((dot (now - last) (next - now) : ℝ)
        = -(Real.sqrt ((vSize2 (now - last) : ℤ) : ℝ)
            * Real.sqrt ((vSize2 (next - now) : ℤ) : ℝ))) := by
  have ha : (0 : ℤ) ≤ vSize2 (now - last) := vSize2_nonneg _
  have hb : (0 : ℤ) ≤ vSize2 (next - now) := vSize2_nonneg _
  have hb' : (0 : ℝ) ≤ ((vSize2 (next - now) : ℤ) : ℝ) := by exact_mod_cast hb
  have ha' : (0 : ℝ) ≤ ((vSize2 (now - last) : ℤ) : ℝ) := by exact_mod_cast ha
  have hiff : isDegenerate last now next = true ↔
      (dot (now - last) (next - now) ≤ 0 ∧
        dot (now - last) (next - now) * dot (now - last) (next - now)
          = vSize2 (now - last) * vSize2 (next - now)) := by
    simp [isDegenerate]
  rw [hiff]
  constructor
  · rintro ⟨hle, hsq⟩
    have hsq' : ((dot (now - last) (next - now) : ℤ) : ℝ)
        * ((dot (now - last) (next - now) : ℤ) : ℝ)
        = ((vSize2 (now - last) : ℤ) : ℝ) * ((vSize2 (next - now) : ℤ) : ℝ) := by
      exact_mod_cast congrArg (fun z : ℤ => (z : ℝ)) hsq
    have hle' : ((dot (now - last) (next - now) : ℤ) : ℝ) ≤ 0 := by exact_mod_cast hle
    have : Real.sqrt (((vSize2 (now - last) : ℤ) : ℝ) * ((vSize2 (next - now) : ℤ) : ℝ))
        = -((dot (now - last) (next - now) : ℤ) : ℝ) := by
      rw [← hsq']
      rw [show ((dot (now - last) (next - now) : ℤ) : ℝ)
            * ((dot (now - last) (next - now) : ℤ) : ℝ)
          = (-((dot (now - last) (next - now) : ℤ) : ℝ))
            * (-((dot (now - last) (next - now) : ℤ) : ℝ)) by ring]
      exact Real.sqrt_mul_self (by linarith)
    rw [Real.sqrt_mul ha'] at this
    rw [this]
    ring
  · intro h
    have hprod : (0 : ℝ) ≤ Real.sqrt ((vSize2 (now - last) : ℤ) : ℝ)
        * Real.sqrt ((vSize2 (next - now) : ℤ) : ℝ) :=
      mul_nonneg (Real.sqrt_nonneg _) (Real.sqrt_nonneg _)
    have hle' : ((dot (now - last) (next - now) : ℤ) : ℝ) ≤ 0 := by
      rw [h]; linarith
    refine ⟨by exact_mod_cast hle', ?_⟩
    have hsq' : ((dot (now - last) (next - now) : ℤ) : ℝ)
        * ((dot (now - last) (next - now) : ℤ) : ℝ)
        = ((vSize2 (now - last) : ℤ) : ℝ) * ((vSize2 (next - now) : ℤ) : ℝ) := by
      rw [h]
      rw [show (-(Real.sqrt ((vSize2 (now - last) : ℤ) : ℝ)
            * Real.sqrt ((vSize2 (next - now) : ℤ) : ℝ)))
          * (-(Real.sqrt ((vSize2 (now - last) : ℤ) : ℝ)
            * Real.sqrt ((vSize2 (next - now) : ℤ) : ℝ)))
          = (Real.sqrt ((vSize2 (now - last) : ℤ) : ℝ)
              * Real.sqrt ((vSize2 (now - last) : ℤ) : ℝ))
            * (Real.sqrt ((vSize2 (next - now) : ℤ) : ℝ)
              * Real.sqrt ((vSize2 (next - now) : ℤ) : ℝ)) by ring]
      rw [Real.mul_self_sqrt ha', Real.mul_self_sqrt hb']
    exact_mod_cast hsq'

theorem length_removeAtSwap (polys : Polygons) (i : Nat) :
    (removeAtSwap polys i).length
      = if polys.length = 1 then 0
        else if 1 < polys.length then polys.length - 1 else polys.length := by
  unfold removeAtSwap
  split_ifs with h1 h2 h3 <;> simp_all [List.length_dropLast, List.length_set]

/-- Fuel adequacy for the set-level loop: one extra unit of fuel changes
nothing once the fuel covers the loop measure `2 * length + 1 - i`. -/
theorem rdvGo_fuel_succ :
    ∀ (fuel : Nat) (polys : Polygons) (i : Nat),
      2 * polys.length + 1 - i ≤ fuel → rdvGo fuel polys i = rdvGo (fuel + 1) polys i := by
  intro fuel
  induction fuel with
  | zero =>
    intro polys i hle
    have hi : ¬ i < polys.length := by omega
    simp [rdvGo, hi]
  | succ f ih =>
    intro polys i hle
    rw [show f + 1 + 1 = (f + 1) + 1 from rfl]
    rw [rdvGo, rdvGo]
    by_cases hi : i < polys.length
    · simp only [hi, dif_pos]
      set pr := processPoly (polys.get ⟨i, hi⟩) with hpr
      by_cases hch : pr.2
      · by_cases hbig : 2 < pr.1.length
        · simp only [hch, hbig, if_pos, if_true]
          exact ih (polys.set i pr.1) (i + 1) (by simp [List.length_set]; omega)
        · simp only [hch, hbig, if_true, if_neg, if_false]
          refine ih (removeAtSwap polys i) i ?_
          rw [length_removeAtSwap polys i]
          split_ifs with h1 h2 <;> omega
      · simp only [hch, if_neg, Bool.false_eq_true, not_false_iff, if_false]
        exact ih polys (i + 1) (by omega)
    · simp [hi]

/-- Fuel adequacy, general form: any two sufficient fuel amounts agree, so the
`2 * length + 1` budget used by `removeDegenerateVertsForEveryone` computes
the loop's true result. -/
theorem rdvGo_fuel_stable (polys : Polygons) (i : Nat) (fuel g : Nat)
    (hf : 2 * polys.length + 1 - i ≤ fuel) (hg : fuel ≤ g) :
    rdvGo fuel polys i = rdvGo g polys i := by
  induction g with
  | zero =>
    have : fuel = 0 := by omega
    simp [this]
  | succ n ih =>
    rcases Nat.lt_or_ge fuel (n + 1) with hlt | hge
    · have hfn : fuel ≤ n := by omega
      rw [ih hfn]
      exact rdvGo_fuel_succ n polys i (by omega)
    · have : fuel = n + 1 := by omega
      simp [this]

/-! ## C10: the move-assignment never terminates for distinct operands -/

/-- C10: `Polygons::operator=(Polygons&&)` re-enters itself unconditionally
whenever the operands are distinct, so no recursion depth suffices for it to
return — contradicting the claim that it terminates leaving the receiver with
the source's contours. -/
theorem moveAssign_nonterminating :
    ∀ (fuel : Nat) (receiver source : Polygons),
      moveAssignFuel fuel true receiver source = none := by
  intro fuel
  induction fuel with
  | zero => intro r s; rfl
  | succ f ih => intro r s; exact ih r s

/-! ## C8: offsetting by zero distance is the identity -/

/-- C8: `LinesSet::offset` with distance 0 returns exactly the input paths,
unchanged and in order, for every clipping oracle (hence without invoking the
clipping engine) and every join-style/miter-limit configuration. -/
theorem offset_zero_identity :
    ∀ (oracle : Int → Nat → Int → Polygons → Polygons) (paths : Polygons)
      (joinType : Nat) (miterLimit : Int),
      offset oracle paths 0 joinType miterLimit = paths := by
  intro oracle paths joinType miterLimit
  simp [offset]

/-! ## C9: `findInside` on the empty set returns 0, not the sentinel -/

/-- C9: on the empty set `findInside` returns `false` converted to the index 0
rather than `NO_INDEX`, which is indistinguishable from the valid index 0 that
a non-empty set can return (shown here for a classifier reporting the query
point inside the single triangle). -/
theorem findInside_empty_returns_zero :
    findInside (fun _ _ _ => 1) [] ⟨7, 7⟩ false = 0 ∧
      (0 : Nat) ≠ NO_INDEX ∧
      findInside (fun _ _ _ => 1) [[⟨0, 0⟩, ⟨100, 0⟩, ⟨0, 100⟩]] ⟨1, 1⟩ false = 0 ∧
      ([[⟨0, 0⟩, ⟨100, 0⟩, ⟨0, 100⟩]] : Polygons) ≠ [] := by
  refine ⟨rfl, by decide, by decide, by decide⟩

/-! ## C4: the smoothing window trigger tests the wrong quantity -/

/-- C4 (code bug): for the window with middle vertices `p1 = (1000, 0)` and
`p2 = (1000, 10)` and `maxResolution = 50`, the middle segment's squared
length is 100, far below `maxResolution² = 2500`, so the claim (and the code's
own comment) demand that the window be acted on; but the code's
`distance_squared` is `|p1 · p2| = 1000000`, so its guard evaluates to false
and the window is skipped. -/
theorem smooth_trigger_uses_position_dot :
    smoothTriggersClaim ⟨1000, 0⟩ ⟨1000, 10⟩ 50 = true ∧
      smoothTriggersCode ⟨1000, 0⟩ ⟨1000, 10⟩ 50 = false ∧
      vSize2 ((⟨1000, 10⟩ : Point2LL) - ⟨1000, 0⟩) = 100 ∧
      smoothDistanceSquared ⟨1000, 0⟩ ⟨1000, 10⟩ = 1000000 := by
  decide

/-! ## C5: even-odd membership with border short-circuit -/

theorem insideGo_no_border (pip : Point2LL → Polygon → Int) (p : Point2LL)
    (b : Bool) :
    ∀ (polys : Polygons) (acc : Int),
      (∀ poly ∈ polys, pip p poly = 0 ∨ pip p poly = 1) →
      insideGo pip p b polys acc = decide ((acc + (polys.map (pip p)).sum) % 2 = 1) := by
  intro polys
  induction polys with
  | nil => intro acc _; simp [insideGo]
  | cons poly rest ih =>
    intro acc hno
    have hpoly := hno poly (List.mem_cons_self poly rest)
    have hrest : ∀ q ∈ rest, pip p q = 0 ∨ pip p q = 1 := fun q hq =>
      hno q (List.mem_cons_of_mem _ hq)
    have hne : ¬ pip p poly = -1 := by rcases hpoly with h | h <;> omega
    simp only [insideGo, hne, if_neg, if_false]
    rw [ih (acc + pip p poly) hrest]
    congr 1
    simp [List.map_cons, List.sum_cons]
    ring_nf

/-- C5: `Polygons::inside` sums the per-polygon results of the
point-in-single-path oracle in order and answers true iff the sum is odd; if
the oracle reports the point exactly on any polygon's border, the function
returns `border_result` immediately, whatever the remaining polygons would
report. -/
theorem inside_evenodd_spec (pip : Point2LL → Polygon → Int) (p : Point2LL) (b : Bool) :
    (∀ polys : Polygons,
        (∀ poly ∈ polys, pip p poly = 0 ∨ pip p poly = 1) →
        inside pip polys p b = decide ((polys.map (pip p)).sum % 2 = 1)) ∧
      (∀ (pre post : Polygons) (q : Polygon),
        (∀ poly ∈ pre, pip p poly = 0 ∨ pip p poly = 1) →
        pip p q = -1 →
        inside pip (pre ++ q :: post) p b = b) := by
  constructor
  · intro polys hno
    have := insideGo_no_border pip p b polys 0 hno
    simpa [inside] using this
  · intro pre post q hpre hq
    unfold inside
    suffices hgen : ∀ (l : Polygons) (acc : Int),
        (∀ poly ∈ l, pip p poly = 0 ∨ pip p poly = 1) →
        insideGo pip p b (l ++ q :: post) acc = b by
      exact hgen pre 0 hpre
    intro l
    induction l with
    | nil => intro acc _; simp [insideGo, hq]
    | cons poly rest ih =>
      intro acc hno
      have hpoly := hno poly (List.mem_cons_self poly rest)
      have hrest : ∀ r ∈ rest, pip p r = 0 ∨ pip p r = 1 := fun r hr =>
        hno r (List.mem_cons_of_mem _ hr)
      have hne : ¬ pip p poly = -1 := by rcases hpoly with h | h <;> omega
      simp only [List.cons_append, insideGo, hne, if_neg, if_false]
      exact ih (acc + pip p poly) hrest

/-- Witness for C5 at a concrete oracle, point and set: a two-polygon set where
the point is inside exactly one polygon (sum 1, odd, so `inside` is true), and
a border report on the first polygon short-circuiting to `border_result`. -/
theorem inside_evenodd_spec_witness :
    (∀ poly ∈ ([[⟨0, 0⟩], [⟨2, 2⟩]] : Polygons),
        (fun (_ : Point2LL) (poly : Polygon) => if poly = [⟨0, 0⟩] then (1 : Int) else 0) ⟨5, 5⟩ poly = 0 ∨
        (fun (_ : Point2LL) (poly : Polygon) => if poly = [⟨0, 0⟩] then (1 : Int) else 0) ⟨5, 5⟩ poly = 1) ∧
      inside (fun (_ : Point2LL) (poly : Polygon) => if poly = [⟨0, 0⟩] then (1 : Int) else 0)
          ([[⟨0, 0⟩], [⟨2, 2⟩]] : Polygons) ⟨5, 5⟩ false
        = decide ((([[⟨0, 0⟩], [⟨2, 2⟩]] : Polygons).map
            ((fun (_ : Point2LL) (poly : Polygon) => if poly = [⟨0, 0⟩] then (1 : Int) else 0) ⟨5, 5⟩)).sum % 2 = 1) ∧
      inside (fun (_ : Point2LL) (_ : Polygon) => (-1 : Int)) ([[⟨9, 9⟩]] : Polygons) ⟨5, 5⟩ true = true := by
  refine ⟨by decide, ?_, ?_⟩
  · exact (inside_evenodd_spec _ ⟨5, 5⟩ false).1 _ (by decide)
  · exact (inside_evenodd_spec (fun _ _ => (-1 : Int)) ⟨5, 5⟩ true).2 [] [] [⟨9, 9⟩] (by simp) rfl

/-! ## C6: degenerate-vertex cascade removal is not idempotent -/

/-- C6 counterexample: on the single five-vertex polygon below, one pass
removes the last vertex `(1, 0)` (degenerate against its neighbours through
the wrap-around), leaving `(0, 0)` with the new predecessor `(-1, 0)` against
which it is degenerate; the first vertex is never re-tested against the final
surviving predecessor, so a second pass removes it. Running the operation
twice therefore differs from running it once. -/
theorem removeDegenerateVerts_not_idempotent :
    removeDegenerateVertsForEveryone
        (removeDegenerateVertsForEveryone [[⟨0, 0⟩, ⟨-3, 0⟩, ⟨-4, 2⟩, ⟨-1, 0⟩, ⟨1, 0⟩]])
      ≠ removeDegenerateVertsForEveryone [[⟨0, 0⟩, ⟨-3, 0⟩, ⟨-4, 2⟩, ⟨-1, 0⟩, ⟨1, 0⟩]] := by
  decide

/-- C6 amended: the cascade removal is not idempotent in general (see the
counterexample); it is idempotent exactly on the sets a single application
leaves unchanged: whenever one pass is the identity on a set, a second pass
changes nothing either. -/
theorem removeDegenerateVerts_fixedpoint_stable (s : Polygons)
    (h : removeDegenerateVertsForEveryone s = s) :
    removeDegenerateVertsForEveryone (removeDegenerateVertsForEveryone s)
      = removeDegenerateVertsForEveryone s := by
  rw [h, h]

/-- Witness for the amended C6 at a concrete fixed point (an axis-aligned
square, which has no degenerate vertex). -/
theorem removeDegenerateVerts_fixedpoint_stable_witness :
    removeDegenerateVertsForEveryone [[⟨0, 0⟩, ⟨10, 0⟩, ⟨10, 10⟩, ⟨0, 10⟩]]
        = [[⟨0, 0⟩, ⟨10, 0⟩, ⟨10, 10⟩, ⟨0, 10⟩]] ∧
      removeDegenerateVertsForEveryone
          (removeDegenerateVertsForEveryone [[⟨0, 0⟩, ⟨10, 0⟩, ⟨10, 10⟩, ⟨0, 10⟩]])
        = removeDegenerateVertsForEveryone [[⟨0, 0⟩, ⟨10, 0⟩, ⟨10, 10⟩, ⟨0, 10⟩]] :=
  ⟨by decide, removeDegenerateVerts_fixedpoint_stable _ (by decide)⟩

/-! ## C2: the small-feature pass keeps exactly the claimed contours -/

theorem parentRemovedAfter_append {A : Type} (area : A → Rat) (len : A → Int)
    (minArea : Rat) (minCircumference : Int) (pre : List A) (x : A) :
    parentRemovedAfter area len minArea minCircumference (pre ++ [x])
      = if 0 ≤ area x
        then !decide (passesThresholds area len minArea minCircumference x)
        else parentRemovedAfter area len minArea minCircumference pre := by
  unfold parentRemovedAfter
  rw [List.filter_append]
  by_cases hx : 0 ≤ area x
  · simp [hx]
  · simp [hx]

theorem removeSACGo_eq_claimFilter {A : Type} (area : A → Rat) (len : A → Int)
    (minArea : Rat) (minCircumference : Int) (removeHoles : Bool) :
    ∀ (l pre : List A) (flag : Bool),
      parentRemovedAfter area len minArea minCircumference pre = flag →
      removeSACGo area len minArea minCircumference removeHoles l flag
        = claimFilterSAC area len minArea minCircumference removeHoles pre l := by
  intro l
  induction l with
  | nil => intro pre flag _; rfl
  | cons x rest ih =>
    intro pre flag hflag
    have happ := parentRemovedAfter_append area len minArea minCircumference pre x
    by_cases hout : 0 ≤ area x
    · by_cases hpass : passesThresholds area len minArea minCircumference x
      · have h1 : removeSACGo area len minArea minCircumference removeHoles (x :: rest) flag
            = x :: removeSACGo area len minArea minCircumference removeHoles rest false := by
          simp [removeSACGo, hout, hpass]
        have h2 : claimKeeps area len minArea minCircumference removeHoles pre x = true := by
          simp [claimKeeps, hout, hpass]
        rw [h1, claimFilterSAC, h2]
        simp only [if_true, List.singleton_append]
        rw [ih (pre ++ [x]) false (by rw [happ]; simp [hout, hpass])]
      · have h1 : removeSACGo area len minArea minCircumference removeHoles (x :: rest) flag
            = removeSACGo area len minArea minCircumference removeHoles rest true := by
          simp [removeSACGo, hout, hpass]
        have h2 : claimKeeps area len minArea minCircumference removeHoles pre x = false := by
          simp [claimKeeps, hout, hpass]
        rw [h1, claimFilterSAC, h2]
        simp only [if_false, List.nil_append, Bool.false_eq_true]
        rw [ih (pre ++ [x]) true (by rw [happ]; simp [hout, hpass])]
    · have hflag' : parentRemovedAfter area len minArea minCircumference (pre ++ [x]) = flag := by
        rw [happ]; simp [hout, hflag]
      cases flag with
      | true =>
        have h1 : removeSACGo area len minArea minCircumference removeHoles (x :: rest) true
            = removeSACGo area len minArea minCircumference removeHoles rest true := by
          simp [removeSACGo, hout]
        have h2 : claimKeeps area len minArea minCircumference removeHoles pre x = false := by
          simp [claimKeeps, hout, hflag]
        rw [h1, claimFilterSAC, h2]
        simp only [if_false, List.nil_append, Bool.false_eq_true]
        exact ih (pre ++ [x]) true hflag'
      | false =>
        by_cases hkeep : ¬removeHoles ∨ passesThresholds area len minArea minCircumference x
        · have h1 : removeSACGo area len minArea minCircumference removeHoles (x :: rest) false
              = x :: removeSACGo area len minArea minCircumference removeHoles rest false := by
            simp only [removeSACGo, if_neg hout]
            rw [if_neg (by simp), if_pos hkeep]
          have h2 : claimKeeps area len minArea minCircumference removeHoles pre x = true := by
            simp only [claimKeeps, if_neg hout, hflag, Bool.false_eq_true, if_false]
            rcases hkeep with h | h
            · simp [h]
            · simp [h]
          rw [h1, claimFilterSAC, h2]
          simp only [if_true, List.singleton_append]
          rw [ih (pre ++ [x]) false hflag']
        · have h1 : removeSACGo area len minArea minCircumference removeHoles (x :: rest) false
              = removeSACGo area len minArea minCircumference removeHoles rest false := by
            simp only [removeSACGo, if_neg hout]
            rw [if_neg (by simp), if_neg hkeep]
          have h2 : claimKeeps area len minArea minCircumference removeHoles pre x = false := by
            push_neg at hkeep
            simp [claimKeeps, hout, hflag, hkeep.1, hkeep.2]
          rw [h1, claimFilterSAC, h2]
          simp only [if_false, List.nil_append, Bool.false_eq_true]
          exact ih (pre ++ [x]) false hflag'

/-- C2: the single pass of `removeSmallAreaCircumference` keeps exactly the
contours the claim describes — an outline iff it meets both thresholds
(resetting the parent-removed flag, which a failing outline sets), and a hole
iff the flag left by the most recent outline is clear and (`removeHoles` being
set) it meets the thresholds itself — together with the claim's concrete
scenario: with `removeHoles = false`, a below-threshold outline (area 1,
circumference 100) immediately followed by a larger hole (area -50,
circumference 400) drops both, against thresholds `minArea = 5`,
`minCircumference = 10`. -/
theorem removeSmallAreaCircumference_spec :
    (∀ (A : Type) (area : A → Rat) (len : A → Int) (minArea : Rat)
        (minCircumference : Int) (removeHoles : Bool) (polys : List A),
        removeSmallAreaCircumference area len minArea minCircumference removeHoles polys
          = claimFilterSAC area len minArea minCircumference removeHoles [] polys) ∧
      removeSmallAreaCircumference (A := Rat × Int) Prod.fst Prod.snd 5 10 false
          [((1 : Rat), (100 : Int)), ((-50 : Rat), (400 : Int))]
        = [] := by
  constructor
  · intro A area len minArea minCircumference removeHoles polys
    exact (removeSACGo_eq_claimFilter area len minArea minCircumference removeHoles
      polys [] false rfl).symm ▸ rfl
  · decide

/-! ## C3: `ensureManifold` duplicate detection -/

theorem dupScanPoints_append (l1 : List Point2LL) :
    ∀ (l2 seen : List Point2LL),
      dupScanPoints (l1 ++ l2) seen
        = ((dupScanPoints l1 seen).1 ++ (dupScanPoints l2 (dupScanPoints l1 seen).2).1,
            (dupScanPoints l2 (dupScanPoints l1 seen).2).2) := by
  induction l1 with
  | nil => intro l2 seen; rfl
  | cons p rest ih =>
    intro l2 seen
    simp only [List.cons_append, dupScanPoints, List.append_eq]
    rw [ih l2 (p :: seen)]
    by_cases h : p ∈ seen <;> simp [h]

/-- The duplicate scan only depends on the flattened vertex sequence: the
seen-set persists across contours. -/
theorem dupScanPolys_eq_join (polys : Polygons) :
    ∀ seen : List Point2LL, dupScanPolys polys seen = dupScanPoints polys.flatten seen := by
  induction polys with
  | nil => intro seen; rfl
  | cons poly rest ih =>
    intro seen
    simp only [dupScanPolys, List.flatten_cons, dupScanPoints_append, ih]

theorem mem_dupScanPoints (p : Point2LL) :
    ∀ (l seen : List Point2LL),
      p ∈ (dupScanPoints l seen).1 ↔
        2 ≤ l.count p ∨ (p ∈ seen ∧ 1 ≤ l.count p) := by
  intro l
  induction l with
  | nil => intro seen; simp [dupScanPoints]
  | cons q rest ih =>
    intro seen
    have ihq := ih (q :: seen)
    by_cases hpq : p = q
    · subst hpq
      by_cases hps : p ∈ seen
      · have hc : seen.contains p = true := by
          rw [List.contains, List.elem_eq_mem]; exact decide_eq_true hps
        simp only [dupScanPoints, hc, if_true, List.mem_cons, ihq]
        simp [List.count_cons, hps]
      · have hc : seen.contains p = false := by
          rw [List.contains, List.elem_eq_mem]; exact decide_eq_false hps
        simp only [dupScanPoints, hc, if_false, Bool.false_eq_true, ihq]
        have hcnt : List.count p (p :: rest) = List.count p rest + 1 := by
          simp [List.count_cons]
        rw [hcnt]
        have hm : p ∈ p :: seen ↔ True := by simp
        rw [hm]
        have hs : p ∈ seen ↔ False := iff_false_intro hps
        rw [hs]
        simp only [true_and, false_and, or_false]
        omega
    · have hqp : ¬ q = p := fun h => hpq h.symm
      have hcnt : List.count p (q :: rest) = List.count p rest := by
        simp [List.count_cons, hqp]
      have hmq : p ∈ q :: seen ↔ p ∈ seen := by simp [hpq]
      by_cases hcq : q ∈ seen <;>
        simp [dupScanPoints, hcq, ihq, hcnt, hmq, hpq]

/-- C3 counterexample: in the single-contour set `[[(0,0),(10,0),(0,0)]]` the
coordinate `(0,0)` occurs twice within one contour and in no other contour,
yet `ensureManifold` identifies it as a duplicate location and synthesises a
removal diamond for it (so the set is NOT left unchanged: the boolean
difference is applied) — contradicting the claim that only coordinates shared
by two or more distinct contours qualify. -/
theorem ensureManifold_single_contour_duplicate :
    duplicateLocations [[⟨0, 0⟩, ⟨10, 0⟩, ⟨0, 0⟩]] = [⟨0, 0⟩] ∧
      (([[⟨0, 0⟩, ⟨10, 0⟩, ⟨0, 0⟩]] : Polygons).countP
          fun poly => decide ((⟨0, 0⟩ : Point2LL) ∈ poly)) = 1 ∧
      removalDots [[⟨0, 0⟩, ⟨10, 0⟩, ⟨0, 0⟩]] ≠ [] := by
  refine ⟨by decide, by decide, by decide⟩

/-- C3 amended: `ensureManifold` identifies exactly those vertex coordinates
that occur two or more times in the whole set — including repeated vertices
within a single contour — synthesises the 4-vertex radius-5 diamond around
each identified occurrence, and replaces the set by its boolean difference
with those diamonds; a set in which no coordinate occurs twice is left
unchanged. -/
theorem ensureManifold_spec (diff : Polygons → Polygons → Polygons) (polys : Polygons) :
    (∀ p : Point2LL, p ∈ duplicateLocations polys ↔ 2 ≤ polys.flatten.count p) ∧
      removalDots polys = (duplicateLocations polys).map diamond ∧
      (duplicateLocations polys = [] → ensureManifold diff polys = polys) ∧
      (duplicateLocations polys ≠ [] →
        ensureManifold diff polys = diff polys (removalDots polys)) := by
  refine ⟨?_, rfl, ?_, ?_⟩
  · intro p
    unfold duplicateLocations
    rw [dupScanPolys_eq_join]
    rw [mem_dupScanPoints]
    simp
  · intro h
    unfold ensureManifold removalDots
    rw [h]
    simp
  · intro h
    unfold ensureManifold
    rw [if_neg]
    simp only [removalDots, ne_eq, List.map_eq_nil_iff]
    exact h

/-- Witness for the amended C3 at a concrete duplicate-free set and a concrete
difference oracle. -/
theorem ensureManifold_spec_witness :
    duplicateLocations [[⟨0, 0⟩, ⟨7, 0⟩, ⟨0, 7⟩]] = [] ∧
      ensureManifold (fun _ _ => []) [[⟨0, 0⟩, ⟨7, 0⟩, ⟨0, 7⟩]]
        = [[⟨0, 0⟩, ⟨7, 0⟩, ⟨0, 7⟩]] :=
  ⟨by decide, (ensureManifold_spec (fun _ _ => []) _).2.2.1 (by decide)⟩

/-! ## C7: rotation-tolerant cyclic duplicate removal -/

theorem polyRemMatches_iff (tol : Int) (keep rem : Polygon) (hk : keep ≠ []) :
    polyRemMatches tol keep rem = true ↔
      (rem.length = keep.length ∧
        (closestAlignment rem keep).1 ≤ tol * tol ∧
        ∀ k < keep.length,
          vSize2 (pointAt rem (((closestAlignment rem keep).2 + k) % rem.length)
              - pointAt keep k)
            ≤ tol * tol) := by
  have hk' : keep.length ≠ 0 := fun h => hk (List.length_eq_zero.mp h)
  unfold polyRemMatches
  by_cases h1 : rem.length ≠ keep.length ∨ rem.length = 0
  · rw [if_pos h1]
    simp only [Bool.false_eq_true, false_iff]
    rintro ⟨hlen, _, _⟩
    rcases h1 with h | h
    · exact h hlen
    · exact hk' (hlen ▸ h)
  · rw [if_neg h1]
    push_neg at h1
    by_cases h2 : (closestAlignment rem keep).1 > tol * tol
    · rw [if_pos h2]
      simp only [Bool.false_eq_true, false_iff]
      rintro ⟨_, hle, _⟩
      exact absurd hle (not_le.mpr h2)
    · rw [if_neg h2]
      rw [List.all_eq_true]
      constructor
      · intro hall
        refine ⟨h1.1, not_lt.mp h2, ?_⟩
        intro k hkk
        have hmem : k ∈ List.range rem.length := List.mem_range.mpr (h1.1 ▸ hkk)
        simpa [not_lt] using hall k hmem
      · rintro ⟨hlen, _, hall⟩
        intro k hkmem
        have hkk : k < keep.length := hlen ▸ List.mem_range.mp hkmem
        simpa [not_lt] using hall k hkk

theorem polysRemove_keep_iff (toBeRemoved : Polygons) (tol : Int) (keep : Polygon) :
    (keep.length > 0 && toBeRemoved.any fun rem => polyRemMatches tol keep rem) = true ↔
      claimExcluded toBeRemoved tol keep := by
  rw [Bool.and_eq_true, List.any_eq_true]
  unfold claimExcluded
  constructor
  · rintro ⟨hk, rem, hmem, hmatch⟩
    have hk' : keep ≠ [] := by
      intro h; subst h; simp at hk
    have := (polyRemMatches_iff tol keep rem hk').mp hmatch
    exact ⟨hk', rem, hmem, this⟩
  · rintro ⟨hk', rem, hmem, hcond⟩
    refine ⟨?_, rem, hmem, (polyRemMatches_iff tol keep rem hk').mpr hcond⟩
    simpa [List.length_pos] using hk'

/-- C7: `Polygons::remove(to_be_removed, tolerance)` excludes exactly the kept
polygons for which `to_be_removed` contains a polygon of the same vertex count
whose rotation offset aligning its vertex closest to the kept polygon's first
vertex puts every corresponding vertex pair within tolerance, with the closest
distance itself within tolerance (squared-distance tests). In particular, with
tolerance 0 an exact duplicate of a kept triangle removes it, while a copy
with one vertex perturbed by more than the tolerance leaves it kept. -/
theorem remove_cyclic_match_spec :
    (∀ (toBeRemoved : Polygons) (tol : Int) (polys : Polygons),
        polysRemove toBeRemoved tol polys
          = polys.filter fun keep => !decide (claimExcluded toBeRemoved tol keep)) ∧
      polysRemove [[⟨0, 0⟩, ⟨100, 0⟩, ⟨0, 100⟩]] 0 [[⟨0, 0⟩, ⟨100, 0⟩, ⟨0, 100⟩]] = [] ∧
      polysRemove [[⟨0, 0⟩, ⟨100, 0⟩, ⟨0, 101⟩]] 0 [[⟨0, 0⟩, ⟨100, 0⟩, ⟨0, 100⟩]]
        = [[⟨0, 0⟩, ⟨100, 0⟩, ⟨0, 100⟩]] := by
  refine ⟨?_, by decide, by decide⟩
  intro toBeRemoved tol polys
  unfold polysRemove
  apply List.filter_congr
  intro keep _
  have hiff := polysRemove_keep_iff toBeRemoved tol keep
  by_cases hc : claimExcluded toBeRemoved tol keep
  · have : (keep.length > 0 && toBeRemoved.any fun rem => polyRemMatches tol keep rem) = true :=
      hiff.mpr hc
    rw [this, decide_eq_true hc]
  · have : (keep.length > 0 && toBeRemoved.any fun rem => polyRemMatches tol keep rem) = false := by
      rcases Bool.eq_false_or_eq_true
          (keep.length > 0 && toBeRemoved.any fun rem => polyRemMatches tol keep rem) with h | h
      · exact absurd (hiff.mp h) hc
      · exact h
    rw [this, decide_eq_false hc]

/-! ## C1: `findInside` parity-and-innermost selection -/

theorem scanEdges_eq (comp : Point2LL → Point2LL → Point2LL → Int) (p : Point2LL)
    (b : Bool) :
    ∀ (es : List (Point2LL × Point2LL)) (cr mx : Int),
      scanEdges comp p b es cr mx
        = if b ∧ (es.any fun e => comp p e.1 e.2 = 0) then .inl ()
          else .inr (cr + ((crossXs comp p es).length : Int),
              recordMin mx (crossXs comp p es)) := by
  intro es
  induction es with
  | nil =>
    intro cr mx
    simp [scanEdges, crossXs, recordMin]
  | cons e rest ih =>
    intro cr mx
    by_cases hc1 : comp p e.1 e.2 = 1
    · have hc0 : ¬ comp p e.1 e.2 = 0 := by rw [hc1]; norm_num
      rw [show scanEdges comp p b (e :: rest) cr mx
            = scanEdges comp p b rest (cr + 1)
                (if crossX p e < mx then crossX p e else mx) from by
          simp [scanEdges, hc1]]
      rw [ih]
      have hxs : crossXs comp p (e :: rest) = crossX p e :: crossXs comp p rest := by
        simp [crossXs, hc1]
      have hany : ((e :: rest).any fun e => comp p e.1 e.2 = 0)
          = (rest.any fun e => comp p e.1 e.2 = 0) := by
        simp [hc0]
      rw [hxs, hany]
      by_cases hb : b ∧ (rest.any fun e => comp p e.1 e.2 = 0)
      · rw [if_pos hb, if_pos hb]
      · rw [if_neg hb, if_neg hb]
        have hrm : recordMin mx (crossX p e :: crossXs comp p rest)
            = recordMin (if crossX p e < mx then crossX p e else mx)
                (crossXs comp p rest) := rfl
        rw [hrm, List.length_cons]
        have : cr + 1 + ((crossXs comp p rest).length : Int)
            = cr + (((crossXs comp p rest).length + 1 : Nat) : Int) := by
          push_cast
          ring
        rw [this]
    · by_cases hb0 : b ∧ comp p e.1 e.2 = 0
      · rw [show scanEdges comp p b (e :: rest) cr mx = .inl () from by
          simp [scanEdges, hc1, hb0]]
        rw [if_pos ⟨hb0.1, by simp [hb0.2]⟩]
      · rw [show scanEdges comp p b (e :: rest) cr mx = scanEdges comp p b rest cr mx from by
          simp [scanEdges, hc1, hb0]]
        rw [ih]
        have hxs : crossXs comp p (e :: rest) = crossXs comp p rest := by
          simp [crossXs, hc1]
        rw [hxs]
        by_cases hc0 : comp p e.1 e.2 = 0
        · have hbf : b = false := by
            rcases Bool.eq_false_or_eq_true b with h | h
            · exact absurd ⟨h, hc0⟩ hb0
            · exact h
          simp [hbf]
        · have hany : ((e :: rest).any fun e => comp p e.1 e.2 = 0)
              = (rest.any fun e => comp p e.1 e.2 = 0) := by
            simp [hc0]
          rw [hany]

theorem scanPolys_eq (comp : Point2LL → Point2LL → Point2LL → Int) (p : Point2LL)
    (b : Bool) :
    ∀ (polys : Polygons) (idx : Nat),
      scanPolys comp p b polys idx
        = match firstBorderPoly comp p b polys idx with
          | some j => .inl j
          | none =>
            .inr (polys.map fun poly => (polyCrossings comp p poly, polyMinX comp p poly)) := by
  intro polys
  induction polys with
  | nil => intro idx; rfl
  | cons poly rest ih =>
    intro idx
    have hscan := scanEdges_eq comp p b (edgePairs poly) 0 INT64_MAX
    by_cases hb : b ∧ hasBorderEdge comp p poly
    · have hcond : b ∧ ((edgePairs poly).any fun e => comp p e.1 e.2 = 0) := by
        exact ⟨hb.1, hb.2⟩
      rw [if_pos hcond] at hscan
      rw [show scanPolys comp p b (poly :: rest) idx = .inl idx from by
        simp only [scanPolys, hscan]]
      rw [show firstBorderPoly comp p b (poly :: rest) idx = some idx from by
        simp only [firstBorderPoly, if_pos hb]]
    · have hcond : ¬ (b ∧ ((edgePairs poly).any fun e => comp p e.1 e.2 = 0)) := by
        intro h
        exact hb ⟨h.1, h.2⟩
      rw [if_neg hcond] at hscan
      rw [show scanPolys comp p b (poly :: rest) idx
            = (match scanPolys comp p b rest (idx + 1) with
                | .inl i => .inl i
                | .inr l =>
                  .inr ((0 + ((crossXs comp p (edgePairs poly)).length : Int),
                      recordMin INT64_MAX (crossXs comp p (edgePairs poly))) :: l)) from by
          simp only [scanPolys, hscan]]
      rw [ih (idx + 1)]
      rw [show firstBorderPoly comp p b (poly :: rest) idx
            = firstBorderPoly comp p b rest (idx + 1) from by
          simp only [firstBorderPoly, if_neg hb]]
      cases hfb : firstBorderPoly comp p b rest (idx + 1) with
      | some j => rfl
      | none =>
        simp only [List.map_cons]
        have : (0 : Int) + ((crossXs comp p (edgePairs poly)).length : Int)
            = polyCrossings comp p poly := by
          rw [zero_add]; rfl
        rw [this]
        rfl

theorem selectLoop_append :
    ∀ (l : List (Int × Int)) (e : Int × Int) (i : Nat) (mxU : Int) (ret n : Nat),
      selectLoop (l ++ [e]) i mxU ret n
        = (if e.1 % 2 = 1 then
            if e.2 < (selectLoop l i mxU ret n).2.1 then
              (i + l.length, e.2, (selectLoop l i mxU ret n).2.2 + 1)
            else ((selectLoop l i mxU ret n).1, (selectLoop l i mxU ret n).2.1,
                (selectLoop l i mxU ret n).2.2 + 1)
          else selectLoop l i mxU ret n) := by
  intro l
  induction l with
  | nil =>
    intro e i mxU ret n
    cases e with
    | mk c m => simp [selectLoop]
  | cons hd l ih =>
    intro e i mxU ret n
    cases hd with
    | mk c m =>
      have harith : i + 1 + l.length = i + (l.length + 1) := by omega
      simp only [List.cons_append, selectLoop, List.append_eq]
      by_cases hc : c % 2 = 1
      · by_cases hm : m < mxU
        · rw [if_pos hc, if_pos hm, if_pos hc, if_pos hm, ih, List.length_cons, harith]
        · rw [if_pos hc, if_neg hm, if_pos hc, if_neg hm, ih, List.length_cons, harith]
      · rw [if_neg hc, if_neg hc, ih, List.length_cons, harith]

theorem oddCandidates_append :
    ∀ (l : List (Int × Int)) (e : Int × Int) (i : Nat),
      oddCandidates (l ++ [e]) i
        = oddCandidates l i
          ++ (if e.1 % 2 = 1 ∧ e.2 < INT64_MAX then [(i + l.length, e.2)] else []) := by
  intro l
  induction l with
  | nil =>
    intro e i
    cases e with
    | mk c m =>
      simp [oddCandidates]
  | cons hd l ih =>
    intro e i
    cases hd with
    | mk c m =>
      have harith : i + 1 + l.length = i + (l.length + 1) := by omega
      simp only [List.cons_append, oddCandidates, List.append_eq]
      by_cases h : c % 2 = 1 ∧ m < INT64_MAX
      · rw [if_pos h, if_pos h, ih, List.length_cons, harith, List.cons_append]
      · rw [if_neg h, if_neg h, ih, List.length_cons, harith]

theorem oddCount_append (l : List (Int × Int)) (e : Int × Int) :
    oddCount (l ++ [e]) = oddCount l + (if e.1 % 2 = 1 then 1 else 0) := by
  unfold oddCount
  rw [List.countP_append]
  congr 1
  rw [List.countP_cons]
  by_cases h : e.1 % 2 = 1 <;> simp [h]

theorem firstArgmin_append :
    ∀ (S : List (Nat × Int)) (a : Nat × Int),
      firstArgmin (S ++ [a])
        = (match firstArgmin S with
          | none => some a
          | some f => if a.2 < f.2 then some a else some f) := by
  intro S
  induction S with
  | nil => intro a; rfl
  | cons s S ih =>
    intro a
    rw [show (s :: S) ++ [a] = s :: (S ++ [a]) from rfl]
    rw [show firstArgmin (s :: (S ++ [a]))
          = (match firstArgmin (S ++ [a]) with
            | none => some s
            | some g => if g.2 < s.2 then some g else some s) from rfl]
    rw [ih]
    rw [show firstArgmin (s :: S)
          = (match firstArgmin S with
            | none => some s
            | some g => if g.2 < s.2 then some g else some s) from rfl]
    cases hfa : firstArgmin S with
    | none => rfl
    | some f =>
      dsimp only
      by_cases h1 : a.2 < f.2
      · rw [if_pos h1]
        dsimp only
        by_cases h2 : f.2 < s.2
        · rw [if_pos h2]
          dsimp only
          rw [if_pos (show a.2 < s.2 by omega), if_pos h1]
        · rw [if_neg h2]
      · rw [if_neg h1]
        dsimp only
        by_cases h2 : f.2 < s.2
        · rw [if_pos h2]
          dsimp only
          rw [if_neg h1]
        · rw [if_neg h2]
          dsimp only
          rw [if_neg (show ¬ a.2 < s.2 by omega)]

theorem firstArgmin_mem :
    ∀ (S : List (Nat × Int)) (f : Nat × Int), firstArgmin S = some f → f ∈ S := by
  intro S
  induction S with
  | nil => intro f h; cases h
  | cons e rest ih =>
    intro f h
    cases hfa : firstArgmin rest with
    | none =>
      simp only [firstArgmin, hfa, Option.some.injEq] at h
      subst h
      exact List.mem_cons_self _ _
    | some g =>
      simp only [firstArgmin, hfa] at h
      by_cases hlt : g.2 < e.2
      · rw [if_pos hlt] at h
        simp only [Option.some.injEq] at h
        subst h
        exact List.mem_cons_of_mem _ (ih _ hfa)
      · rw [if_neg hlt] at h
        simp only [Option.some.injEq] at h
        subst h
        exact List.mem_cons_self _ _

theorem oddCandidates_lt :
    ∀ (l : List (Int × Int)) (i : Nat) (x : Nat × Int),
      x ∈ oddCandidates l i → x.2 < INT64_MAX := by
  intro l
  induction l with
  | nil => intro i x h; cases h
  | cons hd rest ih =>
    intro i x h
    cases hd with
    | mk c m =>
      by_cases hc : c % 2 = 1 ∧ m < INT64_MAX
      · rw [show oddCandidates ((c, m) :: rest) i
              = (i, m) :: oddCandidates rest (i + 1) from by
            simp [oddCandidates, hc]] at h
        rcases List.mem_cons.mp h with h | h
        · subst h; exact hc.2
        · exact ih (i + 1) x h
      · rw [show oddCandidates ((c, m) :: rest) i = oddCandidates rest (i + 1) from by
            simp [oddCandidates, hc]] at h
        exact ih (i + 1) x h

theorem selectLoop_spec :
    ∀ l : List (Int × Int),
      selectLoop l 0 INT64_MAX NO_INDEX 0
        = ((match firstArgmin (oddCandidates l 0) with
            | none => NO_INDEX
            | some f => f.1),
          (match firstArgmin (oddCandidates l 0) with
            | none => INT64_MAX
            | some f => f.2),
          oddCount l) := by
  intro l
  induction l using List.reverseRecOn with
  | nil => rfl
  | append_singleton l e ih =>
    rw [selectLoop_append, ih, oddCandidates_append, oddCount_append]
    dsimp only
    by_cases he : e.1 % 2 = 1
    · rw [if_pos he, if_pos he]
      by_cases hm : e.2 < INT64_MAX
      · have hcond : e.1 % 2 = 1 ∧ e.2 < INT64_MAX := ⟨he, hm⟩
        rw [if_pos hcond, firstArgmin_append]
        cases hfa : firstArgmin (oddCandidates l 0) with
        | none =>
          dsimp only
          rw [if_pos hm]
        | some f =>
          dsimp only
          by_cases hlt : e.2 < f.2
          · rw [if_pos hlt, if_pos hlt]
          · rw [if_neg hlt, if_neg hlt]
      · have hncond : ¬ (e.1 % 2 = 1 ∧ e.2 < INT64_MAX) := fun h => hm h.2
        rw [if_neg hncond, List.append_nil]
        cases hfa : firstArgmin (oddCandidates l 0) with
        | none =>
          dsimp only
          rw [if_neg hm]
        | some f =>
          have hflt : f.2 < INT64_MAX := oddCandidates_lt l 0 f (firstArgmin_mem _ f hfa)
          have hnlt : ¬ e.2 < f.2 := by omega
          dsimp only
          rw [if_neg hnlt]
    · have hncond : ¬ (e.1 % 2 = 1 ∧ e.2 < INT64_MAX) := fun h => he h.1
      rw [if_neg he, if_neg he, if_neg hncond, List.append_nil]
      rw [Nat.add_zero]

theorem selectUneven_eq_claimSelect (data : List (Int × Int)) :
    selectUneven data = claimSelect data := by
  unfold selectUneven claimSelect
  rw [selectLoop_spec]

/-- C1 counterexample: on the empty set every polygon (vacuously) has an even
crossing count — zero odd-count polygons, an even number — so the claim
demands the `NO_INDEX` sentinel, but the code returns `false`, i.e. 0 (the
claim-side selection formula indeed yields the sentinel there). -/
theorem findInside_empty_set_cex :
    findInside (fun _ _ _ => 1) [] ⟨3, 4⟩ true = 0 ∧
      findInside (fun _ _ _ => 1) [] ⟨3, 4⟩ true ≠ NO_INDEX ∧
      findInsideClaim (fun _ _ _ => 1) [] ⟨3, 4⟩ true = NO_INDEX := by
  refine ⟨rfl, by decide, by decide⟩

/-- C1 amended: for every NON-EMPTY polygon set, query point, border flag and
per-edge classifier, `findInside` behaves as the claim states: an on-edge hit
returns the owning polygon's index immediately when `onBorderResult` is true;
otherwise, when the number of polygons with an odd crossing count is even the
`NO_INDEX` sentinel is returned, and otherwise the index of the odd-count
polygon whose recorded minimum right-of-crossing x-coordinate is smallest
(first index on ties; a polygon whose recorded minimum stayed at the `int64`
sentinel — no genuine crossing x — is never selected). The empty set instead
returns 0. -/
theorem findInside_innermost_spec (comp : Point2LL → Point2LL → Point2LL → Int)
    (polys : Polygons) (p : Point2LL) (b : Bool) (hne : polys ≠ []) :
    findInside comp polys p b = findInsideClaim comp polys p b := by
  unfold findInside findInsideClaim
  have hlen : ¬ polys.length < 1 := by
    have := List.length_pos.mpr hne
    omega
  rw [if_neg hlen, scanPolys_eq]
  cases h : firstBorderPoly comp p b polys 0 with
  | some j => rfl
  | none => exact selectUneven_eq_claimSelect _

/-- Witness for the amended C1 at a concrete non-empty set, classifier and
point. -/
theorem findInside_innermost_spec_witness :
    ([[⟨0, 0⟩, ⟨100, 0⟩, ⟨0, 100⟩]] : Polygons) ≠ [] ∧
      findInside (fun _ _ _ => 1) [[⟨0, 0⟩, ⟨100, 0⟩, ⟨0, 100⟩]] ⟨1, 1⟩ false
        = findInsideClaim (fun _ _ _ => 1) [[⟨0, 0⟩, ⟨100, 0⟩, ⟨0, 100⟩]] ⟨1, 1⟩ false :=
  ⟨by decide,
    findInside_innermost_spec (fun _ _ _ => 1) [[⟨0, 0⟩, ⟨100, 0⟩, ⟨0, 100⟩]] ⟨1, 1⟩ false
      (by decide)⟩

end CuraSpec
